import Mathlib

/-!
Shallow embedding of the `react-query-filters-manager` hook
(`src/src/filters_manager.tsx`).  The coordinator's cache keys, the
`setFilters` / `resetFilters` mutation write path (persistence, cache
invalidation, URL reflection), the filters read path (`initialData`,
query function, `select`), the variants query and the applied-count
effect are translated directly from the source.  The query-string codec
used for URL encoding is an external collaborator of the repository; it
is modelled from the spec's stated policy (arrayFormat `bracket`,
`skipNull`, `skipEmptyString`).
-/

namespace FiltersManager

/-- One segment of a react-query cache key as used by the hook: literal
strings such as `"filters"` and `"variants"`, the router readiness flag,
and filter values (`initialFilters`, `filters.data`; `none` models the
JS `undefined`). -/
inductive Seg (F : Type) where
  | lit : String → Seg F
  | flag : Bool → Seg F
  | fval : Option F → Seg F
deriving DecidableEq

/-- A react-query cache key: a list of segments. -/
abbrev Key (F : Type) := List (Seg F)

/-- react-query partial key matching: `keyMatches p k` holds when `p` is
an initial run of `k`.  `queryClient.invalidateQueries p` affects exactly
the entries whose key matches `p` this way. -/
def keyMatches {F : Type} [DecidableEq F] : Key F → Key F → Bool
  | [], _ => true
  | _ :: _, [] => false
  | p :: ps, k :: ks => if p = k then keyMatches ps ks else false

/-- The slice of the next/router state that the hook observes and
updates. `urlQuery` is the query component of the current location
(`none`: no query component); the query written by the hook is either
the raw filter value (no `queryTransformer`) or the transformed value.
`navigations` counts `router.replace` calls; `reloads` counts full page
loads (`router.replace` performs a client-side transition and never
changes it). -/
structure RouterState (F P : Type) where
  isReady : Bool
  path : String
  urlQuery : Option (F ⊕ P)
  navigations : Nat
  reloads : Nat
deriving DecidableEq

/-- One entry of the shared react-query cache, reduced to what the
claims observe: its key and whether it has been marked invalidated. -/
structure CacheEntry (F : Type) where
  key : Key F
  invalidated : Bool
deriving DecidableEq

/-- The state the mutations act on: the shared query cache and the
router. -/
structure CoordState (F P : Type) where
  cache : List (CacheEntry F)
  router : RouterState F P
deriving DecidableEq

/-- Observable outcome of running a mutation once: the echoed data, the
surfaced error, the argument handed to the persistence function, and how
many times the persistence function was invoked (the hook passes no
retry option to `useMutation`, so a single call). -/
structure MutationResult (E F : Type) where
  data : Option F
  error : Option E
  persistedWith : F
  persistCalls : Nat
deriving DecidableEq

/-- Inputs read by the hook's query-key expressions (lines 106, 110 and
122 of `filters_manager.tsx`). -/
structure HookInputs (F : Type) where
  filtersKey : Key F
  isReady : Bool
  initialFilters : F
  filtersData : Option F

/-- Key of the variants query (line 106): `[...filtersKey, 'variants']`. -/
def variantsQueryKey {F : Type} (i : HookInputs F) : Key F :=
  i.filtersKey ++ [Seg.lit "variants"]

/-- Key of the filters query (line 110):
`[...filtersKey, 'filters', router.isReady, initialFilters]`. -/
def filtersQueryKey {F : Type} (i : HookInputs F) : Key F :=
  i.filtersKey ++ [Seg.lit "filters", Seg.flag i.isReady, Seg.fval (some i.initialFilters)]

/-- Key of the values query (line 122): `[...filtersKey, filters.data]`. -/
def valuesQueryKey {F : Type} (i : HookInputs F) : Key F :=
  i.filtersKey ++ [Seg.fval i.filtersData]

/-- The key handed to `queryClient.invalidateQueries` in the mutations'
`onSuccess` handlers (lines 129 and 138): `[...filtersKey, 'filters']`. -/
def invalidateTargetKey {F : Type} (ns : Key F) : Key F :=
  ns ++ [Seg.lit "filters"]

/-- All cache keys a coordinator instance reads and writes. -/
def coordKeys {F : Type} (i : HookInputs F) : List (Key F) :=
  [variantsQueryKey i, filtersQueryKey i, valuesQueryKey i]

/-- `queryClient.invalidateQueries k`: marks every cache entry whose key
extends `k` as invalidated. -/
def invalidateQueries {F : Type} [DecidableEq F] (k : Key F) (c : List (CacheEntry F)) :
    List (CacheEntry F) :=
  c.map fun e => if keyMatches k e.key then { e with invalidated := true } else e

/-- Line 153: `queryTransformer ? queryTransformer(data) : data`. -/
def transformData {F P : Type} (queryTransformer : Option (F → P)) (d : F) : F ⊕ P :=
  match queryTransformer with
  | some t => Sum.inr (t d)
  | none => Sum.inl d

/-- `handleSetFiltersInUrl` (lines 150-159): returns with the state
unchanged unless the router is ready and `data` is present and truthy
(the JS guard `if (!router.isReady || !data) return`); otherwise it
replaces the location with the stripped pathname and the transformed
data as query.  `falsy` is the JS truthiness test on a filter value
(constantly `false` for object-typed filter sets). -/
def handleSetFiltersInUrl {F P : Type} (queryTransformer : Option (F → P))
    (falsy : F → Bool) (data : Option F) (s : CoordState F P) : CoordState F P :=
  if s.router.isReady = false then s
  else
    match data with
    | none => s
    | some d =>
      if falsy d then s
      else
        { s with
          router :=
            { s.router with
              urlQuery := some (transformData queryTransformer d)
              navigations := s.router.navigations + 1 } }

/-- The `setFilters` mutation (lines 127-132), run once against the
persistence outcome `setFiltersValues arg`: on success it first awaits
`invalidateQueries([...filtersKey, 'filters'])` and then calls
`handleSetFiltersInUrl` with the echoed result; on failure it changes
nothing and surfaces the error on the mutation handle. -/
def runSetFilters {F P E : Type} [DecidableEq F] (ns : Key F)
    (queryTransformer : Option (F → P)) (falsy : F → Bool)
    (setFiltersValues : F → Except E F) (arg : F) (s : CoordState F P) :
    CoordState F P × MutationResult E F :=
  match setFiltersValues arg with
  | .ok d =>
    (handleSetFiltersInUrl queryTransformer falsy (some d)
        { s with cache := invalidateQueries (invalidateTargetKey ns) s.cache },
      ⟨some d, none, arg, 1⟩)
  | .error e => (s, ⟨none, some e, arg, 1⟩)

/-- The `resetFilters` mutation (lines 134-142): its mutation function
is `(callback) => setFiltersValues(callback ? callback(initialFilters)
: initialFilters)` and its `onSuccess` handler repeats lines 137-140. -/
def runResetFilters {F P E : Type} [DecidableEq F] (ns : Key F)
    (queryTransformer : Option (F → P)) (falsy : F → Bool)
    (setFiltersValues : F → Except E F) (initialFilters : F)
    (callback : Option (F → F)) (s : CoordState F P) :
    CoordState F P × MutationResult E F :=
  let target :=
    match callback with
    | some cb => cb initialFilters
    | none => initialFilters
  match setFiltersValues target with
  | .ok d =>
    (handleSetFiltersInUrl queryTransformer falsy (some d)
        { s with cache := invalidateQueries (invalidateTargetKey ns) s.cache },
      ⟨some d, none, target, 1⟩)
  | .error e => (s, ⟨none, some e, target, 1⟩)

/-- Modelled from the spec (§4.4), for comparison with the code path:
"Computes the target FilterSet as `transform(initialFilters)` if a
transform was supplied, else `initialFilters` verbatim". -/
def resetTargetSpec {F : Type} (initialFilters : F) (callback : Option (F → F)) : F :=
  match callback with
  | some f => f initialFilters
  | none => initialFilters

/-- `initialData` of the filters query (lines 113-117): `undefined`
while the router is not ready, otherwise `queryParser(router.query)`
when the URL query has at least one key and `initialFilters` when it is
empty. -/
def filtersInitialData {F : Type} (queryParser : List (String × String) → F)
    (initialFilters : F) (isReady : Bool) (urlQuery : List (String × String)) :
    Option F :=
  if isReady = false then none
  else some (if urlQuery.length ≠ 0 then queryParser urlQuery else initialFilters)

/-- The filters query function (line 111):
`(await getFiltersValues()) ?? initialFilters`; `fetched = none` models
the accessor yielding `undefined`. -/
def filtersQueryFn {F : Type} (initialFilters : F) (fetched : Option F) : F :=
  fetched.getD initialFilters

/-- The filters query `select` step (line 118): `data ?? initialFilters`. -/
def filtersSelect {F : Type} (initialFilters : F) (d : Option F) : F :=
  d.getD initialFilters

/-- Resolution state of a query as the hook's caller observes it. -/
inductive QueryState (F : Type) where
  | pending
  | success : F → QueryState F
deriving DecidableEq

/-- The filters read (lines 109-120) resolved against a snapshot:
`fetched = none` while `getFiltersValues` has not settled (the query
then shows its synchronous `initialData` seed, or is pending when the
seed is `undefined`); `fetched = some r` once the asynchronous accessor
settled with `r` (`r = none` models it yielding `undefined`). -/
def resolveFiltersRead {F : Type} (queryParser : List (String × String) → F)
    (initialFilters : F) (isReady : Bool) (urlQuery : List (String × String))
    (fetched : Option (Option F)) : QueryState F :=
  match fetched with
  | some r => .success (filtersSelect initialFilters (some (filtersQueryFn initialFilters r)))
  | none =>
    match filtersInitialData queryParser initialFilters isReady urlQuery with
    | some d => .success (filtersSelect initialFilters (some d))
    | none => .pending

/-- The `data` field the caller sees for a settled filters query: the
`select` step applied to the raw (possibly `undefined`) cached value. -/
def filtersExposedData {F : Type} (initialFilters : F) (raw : Option F) : Option F :=
  some (filtersSelect initialFilters raw)

/-- The variants query function (lines 106-108):
`getVariants ? getVariants() : null`; `none` models the JS `null`. -/
def variantsQueryFn {V : Type} (getVariants : Option (Unit → V)) : Option V :=
  match getVariants with
  | some g => some (g ())
  | none => none

/-- One run of the applied-count effect (lines 144-148): when
`getAppliedFiltersCount` is supplied the published count becomes
`getAppliedFiltersCount(filters.data ?? initialFilters)`, otherwise the
effect leaves the previous count in place. -/
def appliedCountStep {F : Type} (getAppliedFiltersCount : Option (F → Nat))
    (initialFilters : F) (filtersData : Option F) (prev : Nat) : Nat :=
  match getAppliedFiltersCount with
  | some g => g (filtersData.getD initialFilters)
  | none => prev

/-- The published applied count after a sequence of effect runs,
starting from the `useState` initial value `0` (line 103); each element
of `updates` is the `filters.data` snapshot a run of the effect saw. -/
def appliedCountAfter {F : Type} (getAppliedFiltersCount : Option (F → Nat))
    (initialFilters : F) (updates : List (Option F)) : Nat :=
  updates.foldl (fun prev d => appliedCountStep getAppliedFiltersCount initialFilters d prev) 0

/-- Concrete router state used by witnesses: ready, at path `/p`. -/
def sampleRouterReady : RouterState String String :=
  ⟨true, "/p", none, 0, 0⟩

/-- Concrete router state used by witnesses: not yet ready. -/
def sampleRouterNotReady : RouterState String String :=
  ⟨false, "/p", none, 0, 0⟩

/-- Concrete coordinator state used by witnesses: one cache entry under
`<k,'filters'>`, ready router. -/
def sampleState : CoordState String String :=
  ⟨[⟨[Seg.lit "k", Seg.lit "filters"], false⟩], sampleRouterReady⟩

/-- Concrete coordinator state used by witnesses: router not ready. -/
def sampleStateNotReady : CoordState String String :=
  ⟨[⟨[Seg.lit "k", Seg.lit "filters"], false⟩], sampleRouterNotReady⟩

/-- Characters of a query string, of a field name or of a field value. -/
abbrev Str := List Char

/-- Modelled from the spec: the field value shapes relevant to the
query-string codec collaborator — string fields, sequence-valued fields,
and absent (null/undefined) fields. -/
inductive QVal where
  | str : Str → QVal
  | arr : List Str → QVal
  | null
deriving DecidableEq

instance : Inhabited QVal := ⟨QVal.null⟩

/-- A FilterSet as the codec sees it: named fields with values. -/
abbrev QueryObj := List (Str × QVal)

/-- Whether a string (component, array item) is nonempty. -/
def nonNil (x : Str) : Bool := !x.isEmpty

/-- Modelled from the spec: the codec's `stringify` of one field under
`queryStringConfig` (`arrayFormat: 'bracket', skipNull: true,
skipEmptyString: true`, `src/unnamed/part_000` lines 101-104) —
null/undefined and empty-string fields are omitted entirely,
sequence-valued fields are encoded in repeated-bracket notation
(`k[]=x` per item) with empty items skipped. -/
def encodePair : Str × QVal → List Str
  | (_, .null) => []
  | (k, .str s) => if s = [] then [] else [k ++ '=' :: s]
  | (k, .arr xs) =>
    (xs.filter nonNil).map (fun x => k ++ '[' :: ']' :: '=' :: x)

/-- Components joined with the separating ampersand. -/
def joinAmp : List Str → Str
  | [] => []
  | [c] => c
  | c :: cs => c ++ '&' :: joinAmp cs

/-- Modelled from the spec: the codec's `stringify` over a whole value. -/
def stringifyQS (V : QueryObj) : Str :=
  joinAmp (V.flatMap encodePair)

/-- A query string cut at the separating ampersands. -/
def splitAmp : Str → List Str
  | [] => [[]]
  | c :: cs =>
    if c = '&' then [] :: splitAmp cs
    else
      match splitAmp cs with
      | [] => [[c]]
      | r :: rs => (c :: r) :: rs

/-- One parsed parameter: the key (bracket suffix stripped), whether the
key used bracket notation, and the raw value (everything after the
first equals sign). -/
def parseComp (c : Str) : Str × Bool × Str :=
  let k := c.takeWhile (fun ch => ch ≠ '=')
  let v := (c.dropWhile (fun ch => ch ≠ '=')).tail
  if k.reverse.take 2 = [']', '['] then ((k.reverse.drop 2).reverse, true, v)
  else (k, false, v)

/-- Accumulating an existing entry with a further bracketed item, as the
codec's bracket parser does. -/
def combineVal (old : QVal) (v : Str) : QVal :=
  match old with
  | .arr xs => .arr (xs ++ [v])
  | .str s => .arr [s, v]
  | .null => .arr [v]

/-- Insert one parsed parameter into the accumulated object: bracketed
keys accumulate into an array, plain keys overwrite; first-occurrence
order is kept. -/
def addParam : QueryObj → Str → Bool → Str → QueryObj
  | [], k, isArr, v => [(k, if isArr then .arr [v] else .str v)]
  | (k', w) :: rest, k, isArr, v =>
    if k' = k then (k', if isArr then combineVal w v else .str v) :: rest
    else (k', w) :: addParam rest k isArr v

def parseStep (acc : QueryObj) (c : Str) : QueryObj :=
  match parseComp c with
  | (k, isArr, v) => addParam acc k isArr v

/-- Modelled from the spec: the codec's `parse` under the same
configuration — split at ampersands, skip empty parameters, fold the
parameters into an object. -/
def parseQS (s : Str) : QueryObj :=
  ((splitAmp s).filter nonNil).foldl parseStep []

/-- One field of `V` restricted to its non-empty, non-null content:
null/undefined fields and empty-string fields are dropped, sequence
fields lose their empty items and are dropped when nothing remains. -/
def restrictPair : Str × QVal → List (Str × QVal)
  | (_, .null) => []
  | (k, .str s) => if s = [] then [] else [(k, .str s)]
  | (k, .arr xs) =>
    if xs.filter nonNil = [] then []
    else [(k, .arr (xs.filter nonNil))]

/-- `V` restricted to its non-empty, non-null fields. -/
def restrictQ (V : QueryObj) : QueryObj :=
  V.flatMap restrictPair

/-- A field name is well formed when it is nonempty and avoids the
characters the encoding itself uses. -/
abbrev wfKey (k : Str) : Prop :=
  k ≠ [] ∧ ∀ c ∈ k, c ≠ '=' ∧ c ≠ '&' ∧ c ≠ '[' ∧ c ≠ ']'

/-- A field value is well formed when it avoids the parameter
separator. -/
abbrev wfVal (v : Str) : Prop := '&' ∉ v

def wfQVal : QVal → Prop
  | .str s => wfVal s
  | .arr xs => ∀ x ∈ xs, wfVal x
  | .null => True

instance wfQVal_decidable : (w : QVal) → Decidable (wfQVal w)
  | .str s => inferInstanceAs (Decidable (wfVal s))
  | .arr xs => inferInstanceAs (Decidable (∀ x ∈ xs, wfVal x))
  | .null => inferInstanceAs (Decidable True)

/-- A FilterSet is well formed for URL encoding when its field names are
distinct and well formed and its values avoid the separator. -/
abbrev wfQuery (V : QueryObj) : Prop :=
  (V.map Prod.fst).Nodup ∧ ∀ p ∈ V, wfKey p.1 ∧ wfQVal p.2

/-- Concrete FilterSet used by the round-trip witness: a string field, a
sequence field containing an empty item, a null field, and an
empty-string field. -/
def sampleQuery : QueryObj :=
  [(['p'], QVal.str ['2']),
   (['t', 'a', 'g'], QVal.arr [['a'], [], ['b']]),
   (['s'], QVal.null),
   (['q'], QVal.str [])]

theorem invalidateQueries_marks {F : Type} [DecidableEq F] (k : Key F)
    (c : List (CacheEntry F)) :
    ∀ e ∈ invalidateQueries k c, keyMatches k e.key = true → e.invalidated = true := by
  intro e he hm
  rcases List.mem_map.1 he with ⟨a, _, rfl⟩
  by_cases h : keyMatches k a.key = true
  · simp [h]
  · rw [if_neg h] at hm
    exact absurd hm h

theorem handleSetFiltersInUrl_active {F P : Type} (qt : Option (F → P)) (falsy : F → Bool)
    (d : F) (s : CoordState F P) (hready : s.router.isReady = true) (hval : falsy d = false) :
    handleSetFiltersInUrl qt falsy (some d) s =
      { s with
        router :=
          { s.router with
            urlQuery := some (transformData qt d)
            navigations := s.router.navigations + 1 } } := by
  unfold handleSetFiltersInUrl
  rw [hready]
  simp [hval]

/-- C1: when the persistence call of `setFilters` succeeds with echoed
result `d`, the coordinator invalidates every cache entry under
`<filtersKey,'filters'>` and (after that completes) reflects the
transformed echoed value into the URL by a replace navigation that keeps
the path and causes no full page reload, while the mutation handle
carries the echoed data and no error. -/
theorem setFilters_success_invalidates_then_reflects
    {F P E : Type} [DecidableEq F] (ns : Key F) (qt : Option (F → P)) (falsy : F → Bool)
    (sfv : F → Except E F) (arg d : F) (s : CoordState F P)
    (hok : sfv arg = .ok d) (hready : s.router.isReady = true) (hval : falsy d = false) :
    (∀ e ∈ (runSetFilters ns qt falsy sfv arg s).1.cache,
        keyMatches (invalidateTargetKey ns) e.key = true → e.invalidated = true)
    ∧ (runSetFilters ns qt falsy sfv arg s).1.router.urlQuery = some (transformData qt d)
    ∧ (runSetFilters ns qt falsy sfv arg s).1.router.path = s.router.path
    ∧ (runSetFilters ns qt falsy sfv arg s).1.router.reloads = s.router.reloads
    ∧ (runSetFilters ns qt falsy sfv arg s).2.error = none
    ∧ (runSetFilters ns qt falsy sfv arg s).2.data = some d := by
  have hrun : runSetFilters ns qt falsy sfv arg s =
      ({ s with
          cache := invalidateQueries (invalidateTargetKey ns) s.cache
          router :=
            { s.router with
              urlQuery := some (transformData qt d)
              navigations := s.router.navigations + 1 } },
        ⟨some d, none, arg, 1⟩) := by
    unfold runSetFilters
    rw [hok]
    show (handleSetFiltersInUrl qt falsy (some d)
        { s with cache := invalidateQueries (invalidateTargetKey ns) s.cache },
      (⟨some d, none, arg, 1⟩ : MutationResult E F)) = _
    rw [handleSetFiltersInUrl_active qt falsy d
        { s with cache := invalidateQueries (invalidateTargetKey ns) s.cache } hready hval]
  rw [hrun]
  exact ⟨invalidateQueries_marks (invalidateTargetKey ns) s.cache, rfl, rfl, rfl, rfl, rfl⟩

/-- C1 witness: at a concrete ready state, the successful write reflects
the echoed value into the URL. -/
theorem setFilters_success_witness :
    (runSetFilters [Seg.lit "k"] (none : Option (String → String)) (fun _ => false)
        (fun x => (Except.ok x : Except String String)) "f" sampleState).1.router.urlQuery
      = some (Sum.inl "f") :=
  (setFilters_success_invalidates_then_reflects [Seg.lit "k"] none (fun _ => false)
      (fun x => (Except.ok x : Except String String)) "f" "f" sampleState rfl rfl rfl).2.1

/-- C2: when the persistence call of `setFilters` rejects with `e`, the
cache and the router (URL) are exactly as before the call, the error is
surfaced on the mutation handle, and the persistence function was
invoked exactly once (no automatic retry). -/
theorem setFilters_failure_frame {F P E : Type} [DecidableEq F] (ns : Key F)
    (qt : Option (F → P)) (falsy : F → Bool) (sfv : F → Except E F) (arg : F) (e : E)
    (s : CoordState F P) (herr : sfv arg = .error e) :
    (runSetFilters ns qt falsy sfv arg s).1 = s
    ∧ (runSetFilters ns qt falsy sfv arg s).2.error = some e
    ∧ (runSetFilters ns qt falsy sfv arg s).2.data = none
    ∧ (runSetFilters ns qt falsy sfv arg s).2.persistCalls = 1 := by
  unfold runSetFilters
  rw [herr]
  exact ⟨rfl, rfl, rfl, rfl⟩

/-- C2 witness: a concrete rejecting persistence call leaves the state
untouched and surfaces the rejection reason. -/
theorem setFilters_failure_witness :
    (runSetFilters [Seg.lit "k"] (none : Option (String → String)) (fun _ => false)
        (fun _ => (Except.error "boom" : Except String String)) "f" sampleState).1
      = sampleState
    ∧ (runSetFilters [Seg.lit "k"] (none : Option (String → String)) (fun _ => false)
        (fun _ => (Except.error "boom" : Except String String)) "f" sampleState).2.error
      = some "boom" :=
  ⟨(setFilters_failure_frame [Seg.lit "k"] none (fun _ => false)
      (fun _ => (Except.error "boom" : Except String String)) "f" "boom" sampleState rfl).1,
    (setFilters_failure_frame [Seg.lit "k"] none (fun _ => false)
      (fun _ => (Except.error "boom" : Except String String)) "f" "boom" sampleState rfl).2.1⟩

/-- C4: `resetFilters` persists exactly `transform(initialFilters)` when
a transform is supplied (`initialFilters` verbatim otherwise) and its
whole outcome — success handling with cache invalidation and URL
reflection, and failure handling — equals that of `setFilters` invoked
with that target value. -/
theorem resetFilters_refines_setFilters {F P E : Type} [DecidableEq F] (ns : Key F)
    (qt : Option (F → P)) (falsy : F → Bool) (sfv : F → Except E F)
    (init : F) (cb : Option (F → F)) (s : CoordState F P) :
    runResetFilters ns qt falsy sfv init cb s
        = runSetFilters ns qt falsy sfv (resetTargetSpec init cb) s
    ∧ (runResetFilters ns qt falsy sfv init cb s).2.persistedWith = resetTargetSpec init cb
    ∧ (∀ f : F → F, resetTargetSpec init (some f) = f init)
    ∧ resetTargetSpec init (none : Option (F → F)) = init := by
  have h1 : runResetFilters ns qt falsy sfv init cb s
      = runSetFilters ns qt falsy sfv (resetTargetSpec init cb) s := by
    cases cb <;> rfl
  refine ⟨h1, ?_, fun f => rfl, rfl⟩
  rw [h1]
  unfold runSetFilters
  cases h : sfv (resetTargetSpec init cb) <;> rfl

/-- C7: the URL reflection procedure leaves the whole state (location
and navigation counters included) unchanged whenever the router is not
ready, or the supplied value is absent, or it is empty (JS-falsy). -/
theorem url_reflection_noop {F P : Type} (qt : Option (F → P)) (falsy : F → Bool)
    (data : Option F) (s : CoordState F P)
    (h : s.router.isReady = false ∨ data = none ∨ ∃ d, data = some d ∧ falsy d = true) :
    handleSetFiltersInUrl qt falsy data s = s := by
  unfold handleSetFiltersInUrl
  rcases h with h | h | ⟨d, rfl, hd⟩
  · simp [h]
  · subst h
    by_cases hr : s.router.isReady = false <;> simp [hr]
  · by_cases hr : s.router.isReady = false <;> simp [hr, hd]

/-- C7 witness: with the router not ready, reflecting a present value is
a no-op. -/
theorem url_reflection_noop_witness :
    handleSetFiltersInUrl (none : Option (String → String)) (fun _ => false)
      (some "d") sampleStateNotReady = sampleStateNotReady :=
  url_reflection_noop none (fun _ => false) (some "d") sampleStateNotReady (Or.inl rfl)

/-- C8: after any run of the applied-count effect that saw filters
snapshot `d`, the published count is `g (d.getD init)` when a count
function `g` is supplied; with no count function the published count is
`0` after every sequence of effect runs, regardless of filter content. -/
theorem applied_count_tracking {F : Type} (g : F → Nat) (init : F)
    (updates : List (Option F)) (d : Option F) :
    appliedCountAfter (some g) init (updates ++ [d]) = g (d.getD init)
    ∧ appliedCountAfter (none : Option (F → Nat)) init updates = 0 := by
  constructor
  · unfold appliedCountAfter
    rw [List.foldl_append]
    rfl
  · unfold appliedCountAfter
    induction updates with
    | nil => rfl
    | cons u us ih =>
      rw [List.foldl_cons]
      exact ih

/-- C9: the variants query key is `<filtersKey,'variants'>` and never
includes filter state — any two input snapshots with the same key
namespace produce the same variants key — and the variants query
function yields `null` when `getVariants` is absent and `getVariants()`
when present. -/
theorem variants_independent_of_filters {F V : Type} (i1 i2 : HookInputs F)
    (g : Unit → V) (h : i1.filtersKey = i2.filtersKey) :
    variantsQueryKey i1 = variantsQueryKey i2
    ∧ variantsQueryKey i1 = i1.filtersKey ++ [Seg.lit "variants"]
    ∧ variantsQueryFn (none : Option (Unit → V)) = none
    ∧ variantsQueryFn (some g) = some (g ()) :=
  ⟨by unfold variantsQueryKey; rw [h], rfl, rfl, rfl⟩

/-- C9 witness: two snapshots sharing a namespace but differing in
readiness, initial filters and filter data have the same variants key. -/
theorem variants_independent_witness :
    variantsQueryKey (⟨[Seg.lit "k"], true, "i1", none⟩ : HookInputs String)
      = variantsQueryKey (⟨[Seg.lit "k"], false, "i2", some "d"⟩ : HookInputs String) :=
  (variants_independent_of_filters (⟨[Seg.lit "k"], true, "i1", none⟩ : HookInputs String)
      ⟨[Seg.lit "k"], false, "i2", some "d"⟩ (fun _ => (0 : Nat)) rfl).1

/-- C10: the `data` field exposed for a settled filters query is never
null/undefined: the `select` step substitutes `initialFilters` for a
null/undefined cached value and passes any present value through. -/
theorem filters_success_data_not_null {F : Type} (init : F) :
    (∀ raw : Option F, filtersExposedData init raw ≠ none)
    ∧ filtersExposedData init none = some init
    ∧ ∀ v : F, filtersExposedData init (some v) = some v :=
  ⟨fun raw => by simp [filtersExposedData], rfl, fun v => rfl⟩

/-- C3: the filters read is pending while the router is not ready (no
synchronous seed and no settled fetch); once ready, the synchronous seed
is `initialFilters` exactly when the URL query is empty and
`queryParser(query)` otherwise; and whenever `getFiltersValues` settles
with `undefined`, `initialFilters` is substituted. -/
theorem filters_read_resolution {F : Type} (queryParser : List (String × String) → F)
    (init : F) (q : List (String × String)) :
    resolveFiltersRead queryParser init false q none = .pending
    ∧ (q = [] → resolveFiltersRead queryParser init true q none = .success init)
    ∧ (q ≠ [] → resolveFiltersRead queryParser init true q none = .success (queryParser q))
    ∧ (∀ isReady : Bool,
        resolveFiltersRead queryParser init isReady q (some none) = .success init) := by
  refine ⟨rfl, ?_, ?_, fun r => rfl⟩
  · intro hq
    subst hq
    rfl
  · intro hq
    have hlen : q.length ≠ 0 := by
      simpa [List.length_eq_zero] using hq
    unfold resolveFiltersRead filtersInitialData filtersSelect
    simp [hlen]

/-- C3 witness: with a nonempty URL query and an unsettled fetch, the
seed is the parsed query. -/
theorem filters_read_resolution_witness :
    resolveFiltersRead (fun _ => "parsed") "init" true [("page", "2")] none
      = .success "parsed" :=
  (filters_read_resolution (fun _ => "parsed") "init" [("page", "2")]).2.2.1 (by decide)

theorem keyMatches_iff {F : Type} [DecidableEq F] (p k : Key F) :
    keyMatches p k = true ↔ ∃ t, k = p ++ t := by
  induction p generalizing k with
  | nil => simp [keyMatches]
  | cons a ps ih =>
    cases k with
    | nil => simp [keyMatches]
    | cons b ks =>
      by_cases hab : a = b
      · subst hab
        simp [keyMatches, ih]
      · simp [keyMatches, hab, Ne.symm hab]

theorem append_keys_ne {α : Type} (a b t1 t2 : List α)
    (hab : ¬ ∃ t, b = a ++ t) (hba : ¬ ∃ t, a = b ++ t) :
    a ++ t1 ≠ b ++ t2 := by
  intro h
  rcases List.append_eq_append_iff.1 h with ⟨w, hw, _⟩ | ⟨w, hw, _⟩
  · exact hab ⟨w, hw⟩
  · exact hba ⟨w, hw⟩

theorem keyMatches_extend_false {F : Type} [DecidableEq F] (a b t : Key F) (x : Seg F)
    (hab : ¬ ∃ u, b = a ++ u) (hba : ¬ ∃ u, a = b ++ u) :
    keyMatches (a ++ [x]) (b ++ t) = false := by
  rw [Bool.eq_false_iff]
  intro hm
  rcases (keyMatches_iff _ _).1 hm with ⟨r, hr⟩
  rw [List.append_assoc] at hr
  rcases List.append_eq_append_iff.1 hr with ⟨w, hw, _⟩ | ⟨w, hw, _⟩
  · exact hba ⟨w, hw⟩
  · exact hab ⟨w, hw⟩

theorem coordKeys_shape {F : Type} (i : HookInputs F) :
    ∀ k ∈ coordKeys i, ∃ t, k = i.filtersKey ++ t := by
  intro k hk
  simp only [coordKeys, variantsQueryKey, filtersQueryKey, valuesQueryKey,
    List.mem_cons, List.mem_singleton, List.not_mem_nil, or_false] at hk
  rcases hk with h | h | h <;> exact ⟨_, h⟩

/-- C6 counterexample: the two namespaces `["a"]` and `["a","filters"]`
are different, yet the first coordinator's invalidation target
`["a","filters"]` matches the second coordinator's variants entry, so
the first coordinator's write invalidates an entry belonging to the
second. -/
theorem namespace_isolation_counterexample :
    (([Seg.lit "a"] : Key String) ≠ ([Seg.lit "a", Seg.lit "filters"] : Key String))
    ∧ invalidateQueries (invalidateTargetKey [Seg.lit "a"])
        [⟨variantsQueryKey
            (⟨[Seg.lit "a", Seg.lit "filters"], true, "i", none⟩ : HookInputs String),
          false⟩]
      = [⟨variantsQueryKey
            (⟨[Seg.lit "a", Seg.lit "filters"], true, "i", none⟩ : HookInputs String),
          true⟩] := by
  exact ⟨by decide, by decide⟩

/-- C6 (amended): two coordinator instances sharing one cache client
whose `FiltersKey` namespaces are such that neither is an initial
segment of the other never collide: all their query keys (variants,
filters, values) differ pairwise, and neither one's invalidation target
matches any entry of the other. -/
theorem distinct_namespaces_no_crosstalk {F : Type} [DecidableEq F]
    (i1 i2 : HookInputs F)
    (h1 : keyMatches i1.filtersKey i2.filtersKey = false)
    (h2 : keyMatches i2.filtersKey i1.filtersKey = false) :
    (∀ k1 ∈ coordKeys i1, ∀ k2 ∈ coordKeys i2, k1 ≠ k2)
    ∧ (∀ k2 ∈ coordKeys i2, keyMatches (invalidateTargetKey i1.filtersKey) k2 = false)
    ∧ (∀ k1 ∈ coordKeys i1, keyMatches (invalidateTargetKey i2.filtersKey) k1 = false) := by
  have hn1 : ¬ ∃ t, i2.filtersKey = i1.filtersKey ++ t := by
    intro hx
    rw [← keyMatches_iff] at hx
    rw [hx] at h1
    exact Bool.noConfusion h1
  have hn2 : ¬ ∃ t, i1.filtersKey = i2.filtersKey ++ t := by
    intro hx
    rw [← keyMatches_iff] at hx
    rw [hx] at h2
    exact Bool.noConfusion h2
  refine ⟨?_, ?_, ?_⟩
  · intro k1 hk1 k2 hk2
    obtain ⟨t1, rfl⟩ := coordKeys_shape i1 k1 hk1
    obtain ⟨t2, rfl⟩ := coordKeys_shape i2 k2 hk2
    exact append_keys_ne _ _ _ _ hn1 hn2
  · intro k2 hk2
    obtain ⟨t2, rfl⟩ := coordKeys_shape i2 k2 hk2
    simp only [invalidateTargetKey]
    exact keyMatches_extend_false _ _ _ _ hn1 hn2
  · intro k1 hk1
    obtain ⟨t1, rfl⟩ := coordKeys_shape i1 k1 hk1
    simp only [invalidateTargetKey]
    exact keyMatches_extend_false _ _ _ _ hn2 hn1

/-- C6 witness (for the amended claim): with namespaces `["a"]` and
`["b"]` the first coordinator's invalidation target does not match the
second coordinator's variants entry. -/
theorem distinct_namespaces_witness :
    keyMatches (invalidateTargetKey [Seg.lit "a"])
      (variantsQueryKey (⟨[Seg.lit "b"], false, "y", some "z"⟩ : HookInputs String))
      = false :=
  (distinct_namespaces_no_crosstalk
      (⟨[Seg.lit "a"], true, "x", none⟩ : HookInputs String)
      ⟨[Seg.lit "b"], false, "y", some "z"⟩ (by decide) (by decide)).2.1
    (variantsQueryKey (⟨[Seg.lit "b"], false, "y", some "z"⟩ : HookInputs String))
    (List.mem_cons_self _ _)

theorem takeWhile_append_stop (p : Char → Bool) (k : Str) (a : Char) (v : Str)
    (hk : ∀ c ∈ k, p c = true) (ha : p a = false) :
    (k ++ a :: v).takeWhile p = k := by
  induction k with
  | nil =>
    rw [List.nil_append, List.takeWhile_cons_of_neg (by simp [ha])]
  | cons c cs ih =>
    rw [List.cons_append, List.takeWhile_cons_of_pos (hk c (List.mem_cons_self c cs)),
      ih (fun x hx => hk x (List.mem_cons_of_mem c hx))]

theorem dropWhile_append_stop (p : Char → Bool) (k : Str) (a : Char) (v : Str)
    (hk : ∀ c ∈ k, p c = true) (ha : p a = false) :
    (k ++ a :: v).dropWhile p = a :: v := by
  induction k with
  | nil =>
    rw [List.nil_append, List.dropWhile_cons_of_neg (by simp [ha])]
  | cons c cs ih =>
    rw [List.cons_append, List.dropWhile_cons_of_pos (hk c (List.mem_cons_self c cs)),
      ih (fun x hx => hk x (List.mem_cons_of_mem c hx))]

theorem parseComp_plain (k s : Str) (hk : wfKey k) :
    parseComp (k ++ '=' :: s) = (k, false, s) := by
  have ht : (k ++ '=' :: s).takeWhile (fun ch => ch ≠ '=') = k :=
    takeWhile_append_stop _ k '=' s
      (fun c hc => by simp [(hk.2 c hc).1]) (by simp)
  have hd : (k ++ '=' :: s).dropWhile (fun ch => ch ≠ '=') = '=' :: s :=
    dropWhile_append_stop _ k '=' s
      (fun c hc => by simp [(hk.2 c hc).1]) (by simp)
  have hbr : ¬ (k.reverse.take 2 = [']', '[']) := by
    intro h
    have hmem : ']' ∈ k.reverse.take 2 := by
      rw [h]
      exact List.mem_cons_self _ _
    have : ']' ∈ k := List.mem_reverse.1 (List.take_subset _ _ hmem)
    exact ((hk.2 _ this).2.2.2) rfl
  unfold parseComp
  rw [ht, hd]
  simp [hbr]

theorem parseComp_arr (k x : Str) (hk : wfKey k) :
    parseComp (k ++ '[' :: ']' :: '=' :: x) = (k, true, x) := by
  have hsh : k ++ '[' :: ']' :: '=' :: x = (k ++ ['[', ']']) ++ '=' :: x := by
    simp
  have hkc : ∀ c ∈ k ++ ['[', ']'], decide (c ≠ '=') = true := by
    intro c hc
    rcases List.mem_append.1 hc with h | h
    · simp [(hk.2 c h).1]
    · simp only [List.mem_cons, List.mem_singleton, List.not_mem_nil, or_false] at h
      rcases h with rfl | rfl <;> decide
  have ht : (k ++ '[' :: ']' :: '=' :: x).takeWhile (fun ch => ch ≠ '=')
      = k ++ ['[', ']'] := by
    rw [hsh]
    exact takeWhile_append_stop _ _ '=' x hkc (by simp)
  have hd : (k ++ '[' :: ']' :: '=' :: x).dropWhile (fun ch => ch ≠ '=') = '=' :: x := by
    rw [hsh]
    exact dropWhile_append_stop _ _ '=' x hkc (by simp)
  have hrev : (k ++ ['[', ']']).reverse = ']' :: '[' :: k.reverse := by
    simp
  simp only [parseComp, ht, hd]
  rw [hrev]
  simp

theorem splitAmp_no_amp (c : Str) (h : '&' ∉ c) : splitAmp c = [c] := by
  induction c with
  | nil => rfl
  | cons a as ih =>
    have ha : ¬ (a = '&') := by
      intro e
      exact h (by simp [e])
    have has : '&' ∉ as := fun hm => h (List.mem_cons_of_mem a hm)
    simp [splitAmp, ha, ih has]

theorem splitAmp_amp (x y : Str) (h : '&' ∉ x) :
    splitAmp (x ++ '&' :: y) = x :: splitAmp y := by
  induction x with
  | nil => simp [splitAmp]
  | cons a as ih =>
    have ha : ¬ (a = '&') := by
      intro e
      exact h (by simp [e])
    have has : '&' ∉ as := fun hm => h (List.mem_cons_of_mem a hm)
    simp [splitAmp, ha, ih has]

theorem nonNil_of_ne {x : Str} (h : x ≠ []) : nonNil x = true := by
  cases x with
  | nil => exact absurd rfl h
  | cons a as => rfl

theorem split_join (comps : List Str) (h : ∀ c ∈ comps, c ≠ [] ∧ '&' ∉ c) :
    (splitAmp (joinAmp comps)).filter nonNil = comps := by
  induction comps with
  | nil => rfl
  | cons c cs ih =>
    obtain ⟨hc1, hc2⟩ := h c (List.mem_cons_self c cs)
    cases cs with
    | nil =>
      have hj : joinAmp [c] = c := rfl
      rw [hj, splitAmp_no_amp c hc2, List.filter_cons, nonNil_of_ne hc1]
      rfl
    | cons c' cs' =>
      have hjoin : joinAmp (c :: c' :: cs') = c ++ '&' :: joinAmp (c' :: cs') := rfl
      rw [hjoin, splitAmp_amp c _ hc2, List.filter_cons, nonNil_of_ne hc1,
        ih (fun d hd => h d (List.mem_cons_of_mem c hd))]
      rfl

theorem addParam_fresh (acc : QueryObj) (k : Str) (ia : Bool) (v : Str)
    (h : k ∉ acc.map Prod.fst) :
    addParam acc k ia v = acc ++ [(k, if ia then QVal.arr [v] else QVal.str v)] := by
  induction acc with
  | nil => rfl
  | cons p rest ih =>
    obtain ⟨k', w⟩ := p
    have hk' : ¬ (k' = k) := by
      intro e
      exact h (by simp [e])
    have hrest : k ∉ rest.map Prod.fst := fun hm => h (by simp [hm])
    simp [addParam, hk', ih hrest]

theorem addParam_snoc_arr (acc : QueryObj) (k : Str) (ys : List Str) (v : Str)
    (h : k ∉ acc.map Prod.fst) :
    addParam (acc ++ [(k, QVal.arr ys)]) k true v
      = acc ++ [(k, QVal.arr (ys ++ [v]))] := by
  induction acc with
  | nil => simp [addParam, combineVal]
  | cons p rest ih =>
    obtain ⟨k', w⟩ := p
    have hk' : ¬ (k' = k) := by
      intro e
      exact h (by simp [e])
    have hrest : k ∉ rest.map Prod.fst := fun hm => h (by simp [hm])
    simp [addParam, hk', ih hrest]

theorem parseFold_arr_run (k : Str) (hk : wfKey k) (xs : List Str) :
    ∀ (acc : QueryObj) (ys : List Str), k ∉ acc.map Prod.fst →
      ∀ rest : List Str,
      ((xs.map (fun x => k ++ '[' :: ']' :: '=' :: x)) ++ rest).foldl parseStep
          (acc ++ [(k, QVal.arr ys)])
        = rest.foldl parseStep (acc ++ [(k, QVal.arr (ys ++ xs))]) := by
  induction xs with
  | nil =>
    intro acc ys hacc rest
    simp
  | cons x xs' ih =>
    intro acc ys hacc rest
    simp only [List.map_cons, List.cons_append, List.foldl_cons]
    have hstep : parseStep (acc ++ [(k, QVal.arr ys)]) (k ++ '[' :: ']' :: '=' :: x)
        = acc ++ [(k, QVal.arr (ys ++ [x]))] := by
      unfold parseStep
      rw [parseComp_arr k x hk]
      exact addParam_snoc_arr acc k ys x hacc
    rw [hstep, ih acc (ys ++ [x]) hacc rest]
    simp

theorem parseFold_encodePair (k : Str) (w : QVal) (hk : wfKey k) (acc : QueryObj)
    (hacc : k ∉ acc.map Prod.fst) (rest : List Str) :
    (encodePair (k, w) ++ rest).foldl parseStep acc
      = rest.foldl parseStep (acc ++ restrictPair (k, w)) := by
  cases w with
  | null => simp [encodePair, restrictPair]
  | str s =>
    by_cases hs : s = []
    · simp [encodePair, restrictPair, hs]
    · simp only [encodePair, restrictPair, if_neg hs, List.cons_append, List.nil_append,
        List.foldl_cons]
      have hstep : parseStep acc (k ++ '=' :: s) = acc ++ [(k, QVal.str s)] := by
        unfold parseStep
        rw [parseComp_plain k s hk]
        exact addParam_fresh acc k false s hacc
      rw [hstep]
  | arr xs =>
    cases hys : xs.filter nonNil with
    | nil => simp [encodePair, restrictPair, hys]
    | cons y ys' =>
      have henc : encodePair (k, QVal.arr xs)
          = (y :: ys').map (fun x => k ++ '[' :: ']' :: '=' :: x) := by
        simp [encodePair, hys]
      have hres : restrictPair (k, QVal.arr xs) = [(k, QVal.arr (y :: ys'))] := by
        simp [restrictPair, hys]
      rw [henc, hres]
      simp only [List.map_cons, List.cons_append, List.foldl_cons]
      have hstep : parseStep acc (k ++ '[' :: ']' :: '=' :: y)
          = acc ++ [(k, QVal.arr [y])] := by
        unfold parseStep
        rw [parseComp_arr k y hk]
        simpa using addParam_fresh acc k true y hacc
      rw [hstep]
      simpa using parseFold_arr_run k hk ys' acc [y] hacc rest

theorem restrictPair_fst (k : Str) (w : QVal) :
    ∀ kk ∈ (restrictPair (k, w)).map Prod.fst, kk = k := by
  cases w with
  | null =>
    intro kk hkk
    simp [restrictPair] at hkk
  | str s =>
    intro kk hkk
    by_cases hs : s = []
    · simp [restrictPair, hs] at hkk
    · simp [restrictPair, hs] at hkk
      exact hkk
  | arr xs =>
    intro kk hkk
    by_cases hys : xs.filter nonNil = []
    · simp [restrictPair, hys] at hkk
    · simp [restrictPair, hys] at hkk
      exact hkk

theorem parseFold_flat (V : QueryObj) :
    ∀ acc : QueryObj, (V.map Prod.fst).Nodup →
      (∀ p ∈ V, wfKey p.1) →
      (∀ kk ∈ V.map Prod.fst, kk ∉ acc.map Prod.fst) →
      (V.flatMap encodePair).foldl parseStep acc = acc ++ restrictQ V := by
  induction V with
  | nil =>
    intro acc _ _ _
    simp [restrictQ]
  | cons p V' ih =>
    intro acc hnd hwf hdisj
    obtain ⟨k, w⟩ := p
    simp only [List.map_cons, List.nodup_cons] at hnd
    have hknotin : k ∉ V'.map Prod.fst := hnd.1
    have hnd' : (V'.map Prod.fst).Nodup := hnd.2
    have hdisj' : ∀ kk ∈ V'.map Prod.fst,
        kk ∉ (acc ++ restrictPair (k, w)).map Prod.fst := by
      intro kk hkk
      rw [List.map_append, List.mem_append]
      rintro (h | h)
      · exact hdisj kk (by simp [hkk]) h
      · exact hknotin ((restrictPair_fst k w kk h) ▸ hkk)
    rw [List.flatMap_cons]
    rw [parseFold_encodePair k w (hwf (k, w) (List.mem_cons_self _ _)) acc
        (hdisj k (by simp)) (V'.flatMap encodePair)]
    rw [ih (acc ++ restrictPair (k, w)) hnd'
        (fun q hq => hwf q (List.mem_cons_of_mem _ hq)) hdisj']
    simp [restrictQ, List.flatMap_cons, List.append_assoc]

theorem encodePair_comps (k : Str) (w : QVal) (hk : wfKey k) (hw : wfQVal w) :
    ∀ c ∈ encodePair (k, w), c ≠ [] ∧ '&' ∉ c := by
  intro c hc
  cases w with
  | null => simp [encodePair] at hc
  | str s =>
    by_cases hs : s = []
    · simp [encodePair, hs] at hc
    · simp only [encodePair, if_neg hs, List.mem_singleton] at hc
      subst hc
      refine ⟨by simp, ?_⟩
      intro hm
      rcases List.mem_append.1 hm with h | h
      · exact (hk.2 _ h).2.1 rfl
      · rcases List.mem_cons.1 h with h | h
        · exact absurd h (by decide)
        · exact hw h
  | arr xs =>
    simp only [encodePair, List.mem_map] at hc
    obtain ⟨x, hx, rfl⟩ := hc
    have hxval : '&' ∉ x := hw x (List.mem_of_mem_filter hx)
    refine ⟨by simp, ?_⟩
    intro hm
    rcases List.mem_append.1 hm with h | h
    · exact (hk.2 _ h).2.1 rfl
    · rcases List.mem_cons.1 h with h | h
      · exact absurd h (by decide)
      · rcases List.mem_cons.1 h with h2 | h2
        · exact absurd h2 (by decide)
        · rcases List.mem_cons.1 h2 with h3 | h3
          · exact absurd h3 (by decide)
          · exact hxval h3

/-- C5: encoding a well-formed FilterSet with the fixed query-string
policy (repeated-bracket arrays, null/undefined and empty-string fields
omitted) and parsing the resulting query string with the same codec
configuration yields the FilterSet restricted to its non-empty,
non-null fields. -/
theorem stringify_parse_roundtrip (V : QueryObj) (h : wfQuery V) :
    parseQS (stringifyQS V) = restrictQ V := by
  obtain ⟨hnd, hwf⟩ := h
  have hcomps : ∀ c ∈ V.flatMap encodePair, c ≠ [] ∧ '&' ∉ c := by
    intro c hc
    rw [List.mem_flatMap] at hc
    obtain ⟨p, hp, hcp⟩ := hc
    obtain ⟨k, w⟩ := p
    exact encodePair_comps k w (hwf (k, w) hp).1 (hwf (k, w) hp).2 c hcp
  unfold parseQS stringifyQS
  rw [split_join _ hcomps]
  simpa using parseFold_flat V [] hnd (fun p hp => (hwf p hp).1) (by simp)

/-- C5 witness: the round trip evaluated at a concrete FilterSet with a
string field, a sequence field containing an empty item, a null field
and an empty-string field. -/
theorem stringify_parse_roundtrip_witness :
    parseQS (stringifyQS sampleQuery) = restrictQ sampleQuery :=
  stringify_parse_roundtrip sampleQuery (by decide)

end FiltersManager
